import Mathlib

/-!
# PicoTestOLED128x32: bouncing pixel, frame-rate monitor and fault signal

A shallow embedding of `src/pico-test-oled.cpp`.

* `unsigned` is 32 bits wide on the target; its arithmetic is modelled on `Nat`
  with an explicit reduction modulo `UINT_MOD = 2^32`.
* `time_us_64()` is a 64-bit microsecond counter; differences are taken modulo
  `U64_MOD = 2^64`.
* The endless loops (`while (true)`) are modelled by the number of iterations
  that have been executed so far.
-/

namespace PicoTestOled

/-! ## Machine arithmetic -/

/-- Number of values of the 32-bit `unsigned` type. -/
def UINT_MOD : Nat := 4294967296

/-- Number of values of the 64-bit `uint64_t` type. -/
def U64_MOD : Nat := 18446744073709551616

/-- Unsigned 32-bit addition `a + b`. -/
def uadd (a b : Nat) : Nat := (a + b) % UINT_MOD

/-- Unsigned 32-bit negation `-a`. -/
def uneg (a : Nat) : Nat := (UINT_MOD - a % UINT_MOD) % UINT_MOD

/-- Unsigned 32-bit subtraction `a - b`. -/
def usub (a b : Nat) : Nat := (a + (UINT_MOD - b % UINT_MOD)) % UINT_MOD

/-- Unsigned 64-bit subtraction `a - b`. -/
def usub64 (a b : Nat) : Nat := (a + (U64_MOD - b % U64_MOD)) % U64_MOD

/-! ## Fault signal (`errorExit`, lines 54-69) -/

/-- Observable operations of the program on its collaborators. -/
inductive Event where
  | ledOn
  | ledOff
  | ledToggle
  | sleepMs (ms : Nat)
  | oledReset (x y : Nat)
  | oledSet (x y : Nat)
  | oledSendBuffer
  | print
  deriving DecidableEq, Repr

/-- Body of the `for` loop of `errorExit` (lines 57-64). -/
def blipBody : List Event :=
  [Event.ledOn, Event.sleepMs 500, Event.ledOff, Event.sleepMs 500,
   Event.ledOn, Event.sleepMs 500, Event.ledOff, Event.sleepMs 500]

/-- The loop `for (unsigned i = ...; i < numBlips; i++)` of `errorExit`, entered with
counter value `i`. At the increment `i < numBlips <= 2^32 - 1`, so `i++` cannot wrap. -/
def blipLoop (numBlips i : Nat) : List Event :=
  if i < numBlips then blipBody ++ blipLoop numBlips (i + 1) else []
termination_by numBlips - i

/-- One iteration of the `while (true)` body of `errorExit` (lines 56-67). -/
def errorExitIteration (numBlips : Nat) : List Event :=
  blipLoop numBlips 0 ++ [Event.sleepMs 1000]

/-- Events issued by `errorExit` during its first `n` iterations of `while (true)`.
The loop has no `break` and no `return`: after any number of iterations another follows. -/
def errorExit (numBlips : Nat) : Nat → List Event
  | 0 => []
  | n + 1 => errorExit numBlips n ++ errorExitIteration numBlips

/-- What the `try` block of `main` threw. -/
inductive Caught where
  | runtimeError
  | other
  deriving DecidableEq, Repr

/-- The `catch` handlers of `main` (lines 144-151): the argument passed to `errorExit`. -/
def catchBlips : Caught → Nat
  | Caught.runtimeError => 2
  | Caught.other => 3

/-- Events after the handler's `printf`, for `n` iterations of the loop of `errorExit`. -/
def faultSignal (c : Caught) (n : Nat) : List Event :=
  errorExit (catchBlips c) n

/-- Number of indicator on/off pairs in a list of events: an `on()` call whose next
indicator call is `off()` (sleeps in between are skipped). -/
def onOffPairs : List Event → Nat
  | [] => 0
  | Event.ledOn :: rest =>
      (match rest.filter (fun e => e = Event.ledOn ∨ e = Event.ledOff) with
       | Event.ledOff :: _ => 1
       | _ => 0) + onOffPairs rest
  | _ :: rest => onOffPairs rest

/-- One indicator on/off pair with its two holds: `on, sleep 500, off, sleep 500`. -/
def onOffPair : List Event :=
  [Event.ledOn, Event.sleepMs 500, Event.ledOff, Event.sleepMs 500]

/-- The sequence `k` on/off pairs long. -/
def blinkPairs (k : Nat) : List Event := (List.replicate k onOffPair).flatten

/-- The cycle named by the specification: `(on, sleep 500, off, sleep 500)` repeated `2 * N`
times, followed by `sleep 1000`. -/
def blinkCycle (N : Nat) : List Event := blinkPairs (2 * N) ++ [Event.sleepMs 1000]

/-- Events that touch only the indicator or the delay primitive. -/
def Event.isSignalOnly : Event → Bool
  | Event.ledOn => true
  | Event.ledOff => true
  | Event.sleepMs _ => true
  | _ => false

/-! ## Display surface -/

/-- Modelled from the spec: the display surface of `devices::SSD1305` (a library type,
not part of this translation unit) as a map from pixel coordinates to on/off. -/
def Surface : Type := Nat → Nat → Bool

/-- Modelled from the spec: `clear()` blanks the whole surface. -/
def Surface.clear (_s : Surface) : Surface := fun _ _ => false

/-- Modelled from the spec: `set(x, y)` draws one pixel. -/
def Surface.set (s : Surface) (x y : Nat) : Surface :=
  fun a b => if a = x ∧ b = y then true else s a b

/-- Modelled from the spec: `reset(x, y)` clears one pixel. -/
def Surface.reset (s : Surface) (x y : Nat) : Surface :=
  fun a b => if a = x ∧ b = y then false else s a b

/-- The first screen (lines 105-111), drawn on the buffer `s`. The loop counters stay
below `width` resp. `height`, so their increments cannot wrap. -/
def firstScreen (width height : Nat) (s : Surface) : Surface :=
  let s0 := s.clear
  let s1 := (List.range width).foldl
    (fun (t : Surface) x => (t.set x 0).set x (usub height 1)) s0
  (List.range height).foldl
    (fun (t : Surface) y => (t.set 0 y).set (usub width 1) y) s1

/-! ## Animation loop (lines 114-142) -/

/-- The statement pair `x += dx; if (x >= limit) { dx = -dx; x += dx+dx; }` of lines
132-133 (and 134-135 for `y`), on 32-bit unsigned values. Returns the new `(x, dx)`. -/
def reflectStep (limit x dx : Nat) : Nat × Nat :=
  let x1 := uadd x dx
  if x1 ≥ limit then
    let dx1 := uneg dx
    (uadd x1 (uadd dx1 dx1), dx1)
  else
    (x1, dx)

/-- Local variables of `main` that live across loop iterations, together with the state of
the indicator and of the display buffer. `frame` is a `long`; it is only ever incremented
and its (signed) overflow after `2^31` frames is not modelled. -/
structure LoopState where
  numBlips : Nat
  x : Nat
  y : Nat
  dx : Nat
  dy : Nat
  frame : Nat
  led : Bool
  oled : Surface

/-- Operands of the division `frame / (usSinceStart / 1000000)` of line 128. -/
structure RateReport where
  frame : Nat
  divisor : Nat
  deriving DecidableEq, Repr

/-- One iteration of the `while (true)` body of `main` (lines 123-141). `now` is the value
`time_us_64()` returns if line 127 is reached in this iteration. `toggle()` flips the
indicator and `state()` reads it. Returns the next state and, when line 128 runs, the
operands of its division. -/
def loopBody (width height startTs now : Nat) (s : LoopState) :
    LoopState × Option RateReport :=
  let toggled : Bool := decide (s.numBlips ≥ 5)
  let led1 : Bool := if toggled then !s.led else s.led
  let numBlips1 : Nat := if toggled then 0 else s.numBlips
  let report : Option RateReport :=
    if toggled && led1 then
      some { frame := s.frame, divisor := usub64 now startTs / 1000000 }
    else none
  let o1 := s.oled.reset s.x s.y
  let px := reflectStep width s.x s.dx
  let py := reflectStep height s.y s.dy
  let o2 := o1.set px.1 py.1
  ({ numBlips := uadd numBlips1 1
     x := px.1
     y := py.1
     dx := px.2
     dy := py.2
     frame := s.frame + 1
     led := led1
     oled := o2 }, report)

/-- State on entry to the animation loop (lines 105-121). `led0` is the indicator state
left by bring-up and `buf` the display buffer before the first screen is drawn. -/
def initState (width height : Nat) (led0 : Bool) (buf : Surface) : LoopState :=
  { numBlips := 0, x := 1, y := 1, dx := 1, dy := 1, frame := 0, led := led0,
    oled := firstScreen width height buf }

/-- State after `n` iterations of the animation loop. `clock k` is the reading of
`time_us_64()` available to the iteration that follows `k` completed ticks. -/
def mainLoop (width height startTs : Nat) (clock : Nat → Nat) (led0 : Bool) (buf : Surface) :
    Nat → LoopState
  | 0 => initState width height led0 buf
  | n + 1 => (loopBody width height startTs (clock n)
      (mainLoop width height startTs clock led0 buf n)).1

/-- The rate report (if any) of the iteration that follows `k` completed ticks. -/
def reportAt (width height startTs : Nat) (clock : Nat → Nat) (led0 : Bool) (buf : Surface)
    (k : Nat) : Option RateReport :=
  (loopBody width height startTs (clock k)
    (mainLoop width height startTs clock led0 buf k)).2

/-- A clock that reads `startTs + perTick * k` microseconds after `k` completed ticks. -/
def steadyClock (startTs perTick : Nat) (k : Nat) : Nat := startTs + perTick * k

/-- Velocity values: `+1` or `-1` as 32-bit unsigned. -/
def IsUnitDelta (d : Nat) : Prop := d = 1 ∨ d = UINT_MOD - 1

instance (d : Nat) : Decidable (IsUnitDelta d) := by
  unfold IsUnitDelta; infer_instance

/-- Position inside the surface and velocity of magnitude one. -/
def InBounds (width height : Nat) (s : LoopState) : Prop :=
  s.x < width ∧ s.y < height ∧ IsUnitDelta s.dx ∧ IsUnitDelta s.dy

instance (width height : Nat) (s : LoopState) : Decidable (InBounds width height s) := by
  unfold InBounds; infer_instance

/-! ## Reference definitions taken from the specification -/

/-- The signed reflection rule in the words of the specification: `x1 = x + d`; if `x1` is out
of `[0, width)` then the delta is negated and `x1 + 2 * (-d)` is the new coordinate. -/
def refReflect (width : Int) (x d : Int) : Int × Int :=
  let x1 := x + d
  if x1 < 0 ∨ x1 ≥ width then (x1 + 2 * (-d), -d) else (x1, d)

/-- Encoding of a signed delta as a 32-bit unsigned value. -/
def encodeDelta (d : Int) : Nat := (d % (UINT_MOD : Int)).toNat

/-- The triangle wave of period `2 * (width - 1)`. -/
def tri (width k : Nat) : Nat :=
  let p := 2 * (width - 1)
  let m := k % p
  if m ≤ width - 1 then m else p - m

/-- Coordinate and delta of one axis after `n` ticks from `(1, +1)`: the statement pair of
lines 132-133 iterated. -/
def axisAfter (limit : Nat) : Nat → Nat × Nat
  | 0 => (1, 1)
  | n + 1 => reflectStep limit (axisAfter limit n).1 (axisAfter limit n).2

/-! ## Arithmetic of one reflection step -/

theorem reflectStep_inc_inside (w x : Nat) (hw : w < UINT_MOD) (hx : x + 1 < w) :
    reflectStep w x 1 = (x + 1, 1) := by
  unfold UINT_MOD at hw
  have h1 : (x + 1) % 4294967296 = x + 1 := by omega
  simp only [reflectStep, uadd, UINT_MOD, h1]
  rw [if_neg (by omega)]

theorem reflectStep_inc_edge (w x : Nat) (hw : w < UINT_MOD) (h2 : 2 ≤ w) (hx : x + 1 = w) :
    reflectStep w x 1 = (w - 2, UINT_MOD - 1) := by
  unfold UINT_MOD at hw
  have h1 : (x + 1) % 4294967296 = x + 1 := by omega
  simp only [reflectStep, uadd, uneg, UINT_MOD, h1]
  rw [if_pos (by omega)]
  ext
  · simp only []; omega
  · simp only []

theorem reflectStep_dec_inside (w x : Nat) (hw : w < UINT_MOD) (h0 : 0 < x) (hx : x < w) :
    reflectStep w x (UINT_MOD - 1) = (x - 1, UINT_MOD - 1) := by
  unfold UINT_MOD at hw
  have h1 : (x + (4294967296 - 1)) % 4294967296 = x - 1 := by omega
  simp only [reflectStep, uadd, UINT_MOD, h1]
  rw [if_neg (by omega)]

theorem reflectStep_dec_edge (w : Nat) (hw : w < UINT_MOD) :
    reflectStep w 0 (UINT_MOD - 1) = (1, 1) := by
  unfold UINT_MOD at hw
  simp only [reflectStep, uadd, uneg, UINT_MOD]
  rw [if_pos (by omega)]

/-- With a unit delta, one reflection step stays inside `[0, w)` and keeps a unit delta. -/
theorem reflectStep_inBounds (w x d : Nat) (h2 : 2 ≤ w) (hw : w < UINT_MOD) (hx : x < w)
    (hd : IsUnitDelta d) :
    (reflectStep w x d).1 < w ∧ IsUnitDelta (reflectStep w x d).2 := by
  rcases hd with rfl | rfl
  · by_cases he : x + 1 = w
    · rw [reflectStep_inc_edge w x hw h2 he]
      exact ⟨by show w - 2 < w; omega, Or.inr rfl⟩
    · rw [reflectStep_inc_inside w x hw (by omega)]
      exact ⟨by show x + 1 < w; omega, Or.inl rfl⟩
  · by_cases h0 : x = 0
    · subst h0
      rw [reflectStep_dec_edge w hw]
      exact ⟨by show 1 < w; omega, Or.inl rfl⟩
    · rw [reflectStep_dec_inside w x hw (by omega) hx]
      exact ⟨by show x - 1 < w; omega, Or.inr rfl⟩

/-- With a unit delta, one reflection step always moves the coordinate. -/
theorem reflectStep_moves (w x d : Nat) (h2 : 2 ≤ w) (hw : w < UINT_MOD) (hx : x < w)
    (hd : IsUnitDelta d) : (reflectStep w x d).1 ≠ x := by
  rcases hd with rfl | rfl
  · by_cases he : x + 1 = w
    · rw [reflectStep_inc_edge w x hw h2 he]; show w - 2 ≠ x; omega
    · rw [reflectStep_inc_inside w x hw (by omega)]; show x + 1 ≠ x; omega
  · by_cases h0 : x = 0
    · subst h0
      rw [reflectStep_dec_edge w hw]; show 1 ≠ 0; omega
    · rw [reflectStep_dec_inside w x hw (by omega) hx]; show x - 1 ≠ x; omega

/-! ## Projections of the loop body -/

@[simp] theorem loopBody_x (w h st now : Nat) (s : LoopState) :
    (loopBody w h st now s).1.x = (reflectStep w s.x s.dx).1 := rfl

@[simp] theorem loopBody_dx (w h st now : Nat) (s : LoopState) :
    (loopBody w h st now s).1.dx = (reflectStep w s.x s.dx).2 := rfl

@[simp] theorem loopBody_y (w h st now : Nat) (s : LoopState) :
    (loopBody w h st now s).1.y = (reflectStep h s.y s.dy).1 := rfl

@[simp] theorem loopBody_dy (w h st now : Nat) (s : LoopState) :
    (loopBody w h st now s).1.dy = (reflectStep h s.y s.dy).2 := rfl

@[simp] theorem loopBody_frame (w h st now : Nat) (s : LoopState) :
    (loopBody w h st now s).1.frame = s.frame + 1 := rfl

theorem loopBody_oled (w h st now : Nat) (s : LoopState) :
    (loopBody w h st now s).1.oled =
      (s.oled.reset s.x s.y).set (reflectStep w s.x s.dx).1 (reflectStep h s.y s.dy).1 := rfl

theorem loopBody_inBounds (w h : Nat) (hw2 : 2 ≤ w) (hw : w < UINT_MOD) (hh2 : 2 ≤ h)
    (hh : h < UINT_MOD) (st now : Nat) (s : LoopState) (hs : InBounds w h s) :
    InBounds w h (loopBody w h st now s).1 := by
  obtain ⟨hx, hy, hdx, hdy⟩ := hs
  have a := reflectStep_inBounds w s.x s.dx hw2 hw hx hdx
  have b := reflectStep_inBounds h s.y s.dy hh2 hh hy hdy
  exact ⟨a.1, b.1, a.2, b.2⟩

theorem mainLoop_succ (w h st : Nat) (clock : Nat → Nat) (led0 : Bool) (buf : Surface)
    (n : Nat) :
    mainLoop w h st clock led0 buf (n + 1) =
      (loopBody w h st (clock n) (mainLoop w h st clock led0 buf n)).1 := rfl

theorem mainLoop_inBounds (w h : Nat) (hw2 : 2 ≤ w) (hw : w < UINT_MOD) (hh2 : 2 ≤ h)
    (hh : h < UINT_MOD) (st : Nat) (clock : Nat → Nat) (led0 : Bool) (buf : Surface)
    (n : Nat) : InBounds w h (mainLoop w h st clock led0 buf n) := by
  induction n with
  | zero => exact ⟨by show 1 < w; omega, by show 1 < h; omega, Or.inl rfl, Or.inl rfl⟩
  | succ n ih =>
    rw [mainLoop_succ]
    exact loopBody_inBounds w h hw2 hw hh2 hh st (clock n) _ ih

/-! ## C1: bounds invariant -/

/-- C1: for 32-bit `width, height >= 2`, one loop-body update maps a state with `x < width`,
`y < height` and unit deltas to such a state again; hence from `(1,1,1,1)` the state after any
number of ticks is in bounds, and the pixel that `set(x, y)` lit in the latest tick is the one
at those in-bounds coordinates. This holds for every clock and every initial indicator state. -/
theorem tick_keeps_position_in_bounds (width height : Nat)
    (hw2 : 2 ≤ width) (hw : width < UINT_MOD) (hh2 : 2 ≤ height) (hh : height < UINT_MOD) :
    (∀ (startTs now : Nat) (s : LoopState), InBounds width height s →
        InBounds width height (loopBody width height startTs now s).1) ∧
    (∀ (startTs : Nat) (clock : Nat → Nat) (led0 : Bool) (buf : Surface) (n : Nat),
        InBounds width height (mainLoop width height startTs clock led0 buf n) ∧
        (mainLoop width height startTs clock led0 buf (n + 1)).x < width ∧
        (mainLoop width height startTs clock led0 buf (n + 1)).y < height ∧
        (mainLoop width height startTs clock led0 buf (n + 1)).oled
          (mainLoop width height startTs clock led0 buf (n + 1)).x
          (mainLoop width height startTs clock led0 buf (n + 1)).y = true) := by
  refine ⟨fun st now s hs => loopBody_inBounds width height hw2 hw hh2 hh st now s hs, ?_⟩
  intro st clock led0 buf n
  have h1 := mainLoop_inBounds width height hw2 hw hh2 hh st clock led0 buf (n + 1)
  refine ⟨mainLoop_inBounds width height hw2 hw hh2 hh st clock led0 buf n, h1.1, h1.2.1, ?_⟩
  rw [mainLoop_succ, loopBody_oled]
  simp [Surface.set]

theorem tick_keeps_position_in_bounds_witness :
    (2 ≤ 128 ∧ 128 < UINT_MOD ∧ 2 ≤ 32 ∧ 32 < UINT_MOD) ∧
    InBounds 128 32
      (mainLoop 128 32 1500000 (fun k => 1500000 + 101000 * k) false (fun _ _ => false) 1000) :=
  ⟨⟨by decide, by decide, by decide, by decide⟩,
   ((tick_keeps_position_in_bounds 128 32 (by decide) (by decide) (by decide) (by decide)).2
      1500000 (fun k => 1500000 + 101000 * k) false (fun _ _ => false) 1000).1⟩

/-! ## C2: the reflected coordinate -/

/-- C2 (as stated) fails: with `width = 32`, `x = 31`, `dx = +1` the attempted coordinate is
`32 >= width`, the tick produces `x = 30`, and `width - 1 - (x_attempted - width) = 31`. -/
theorem reflection_formula_counterexample :
    2 ≤ 32 ∧ 31 < 32 ∧ 31 + 1 ≥ 32 ∧
    (reflectStep 32 31 1).1 = 30 ∧
    ¬ ((reflectStep 32 31 1).1 = 32 - 1 - ((31 + 1) - 32)) := by
  decide

/-- C2 (amended): for 32-bit `width >= 2`, in-bounds `x` and `dx = +1` with attempted coordinate
`x + dx >= width`, the tick produces `width - 2 - (x_attempted - width)`, which is `width - 2`,
and the new `dx` is the 32-bit negation of the old one (`-1`). -/
theorem reflection_at_upper_edge (width x : Nat) (hw2 : 2 ≤ width) (hw : width < UINT_MOD)
    (hx : x < width) (hover : x + 1 ≥ width) :
    (reflectStep width x 1).1 = width - 2 - ((x + 1) - width) ∧
    (reflectStep width x 1).1 = width - 2 ∧
    (reflectStep width x 1).2 = uneg 1 ∧
    (reflectStep width x 1).2 = UINT_MOD - 1 := by
  rw [reflectStep_inc_edge width x hw hw2 (by omega)]
  refine ⟨by show width - 2 = _; omega, rfl, by show UINT_MOD - 1 = uneg 1; decide, rfl⟩

theorem reflection_at_upper_edge_witness :
    (2 ≤ 32 ∧ 32 < UINT_MOD ∧ 31 < 32 ∧ 31 + 1 ≥ 32) ∧
    (reflectStep 32 31 1).1 = 32 - 2 - ((31 + 1) - 32) ∧
    (reflectStep 32 31 1).1 = 32 - 2 ∧
    (reflectStep 32 31 1).2 = uneg 1 ∧
    (reflectStep 32 31 1).2 = UINT_MOD - 1 :=
  ⟨⟨by decide, by decide, by decide, by decide⟩,
   reflection_at_upper_edge 32 31 (by decide) (by decide) (by decide) (by decide)⟩

/-! ## The two axes evolve independently -/

theorem mainLoop_x_axis (w h st : Nat) (clock : Nat → Nat) (led0 : Bool) (buf : Surface)
    (n : Nat) :
    (mainLoop w h st clock led0 buf n).x = (axisAfter w n).1 ∧
    (mainLoop w h st clock led0 buf n).dx = (axisAfter w n).2 := by
  induction n with
  | zero => exact ⟨rfl, rfl⟩
  | succ n ih =>
    rw [mainLoop_succ, loopBody_x, loopBody_dx, ih.1, ih.2]
    exact ⟨rfl, rfl⟩

theorem mainLoop_y_axis (w h st : Nat) (clock : Nat → Nat) (led0 : Bool) (buf : Surface)
    (n : Nat) :
    (mainLoop w h st clock led0 buf n).y = (axisAfter h n).1 ∧
    (mainLoop w h st clock led0 buf n).dy = (axisAfter h n).2 := by
  induction n with
  | zero => exact ⟨rfl, rfl⟩
  | succ n ih =>
    rw [mainLoop_succ, loopBody_y, loopBody_dy, ih.1, ih.2]
    exact ⟨rfl, rfl⟩

/-- Before the first contact an axis moves by `+1` per tick. -/
theorem axisAfter_straight (w : Nat) (hw : w < UINT_MOD) (n : Nat) (hn : 1 + n < w) :
    axisAfter w n = (1 + n, 1) := by
  induction n with
  | zero => rfl
  | succ n ih =>
    have h := ih (by omega)
    show reflectStep w (axisAfter w n).1 (axisAfter w n).2 = _
    rw [h]
    show reflectStep w (1 + n) 1 = _
    rw [reflectStep_inc_inside w (1 + n) hw (by omega)]
    rfl

/-! ## C7: straight-line motion before the first contact -/

/-- C7: for 32-bit `width, height >= 2` and `n` with `1 + n < width`, `1 + n < height`, after `n`
ticks from `(1,1,1,1)` the position is `(1+n, 1+n)` with `dx = dy = 1`. On a 32 x 32 surface
the position after 30 ticks is `(31,31)`, and in tick 31 the test `x >= width` holds on both
axes: both deltas become `-1` (and the position `(30,30)`). -/
theorem straight_line_until_contact (startTs : Nat) (clock : Nat → Nat) (led0 : Bool)
    (buf : Surface) :
    (∀ (width height n : Nat), 2 ≤ width → width < UINT_MOD → 2 ≤ height →
        height < UINT_MOD → 1 + n < width → 1 + n < height →
        (mainLoop width height startTs clock led0 buf n).x = 1 + n ∧
        (mainLoop width height startTs clock led0 buf n).y = 1 + n ∧
        (mainLoop width height startTs clock led0 buf n).dx = 1 ∧
        (mainLoop width height startTs clock led0 buf n).dy = 1) ∧
    ((mainLoop 32 32 startTs clock led0 buf 30).x = 31 ∧
     (mainLoop 32 32 startTs clock led0 buf 30).y = 31 ∧
     (mainLoop 32 32 startTs clock led0 buf 30).dx = 1 ∧
     (mainLoop 32 32 startTs clock led0 buf 30).dy = 1) ∧
    (uadd (mainLoop 32 32 startTs clock led0 buf 30).x
        (mainLoop 32 32 startTs clock led0 buf 30).dx ≥ 32 ∧
     uadd (mainLoop 32 32 startTs clock led0 buf 30).y
        (mainLoop 32 32 startTs clock led0 buf 30).dy ≥ 32 ∧
     (mainLoop 32 32 startTs clock led0 buf 31).dx = UINT_MOD - 1 ∧
     (mainLoop 32 32 startTs clock led0 buf 31).dy = UINT_MOD - 1 ∧
     (mainLoop 32 32 startTs clock led0 buf 31).x = 30 ∧
     (mainLoop 32 32 startTs clock led0 buf 31).y = 30) := by
  have gen : ∀ (width height n : Nat), width < UINT_MOD → height < UINT_MOD →
      1 + n < width → 1 + n < height →
      (mainLoop width height startTs clock led0 buf n).x = 1 + n ∧
      (mainLoop width height startTs clock led0 buf n).y = 1 + n ∧
      (mainLoop width height startTs clock led0 buf n).dx = 1 ∧
      (mainLoop width height startTs clock led0 buf n).dy = 1 := by
    intro width height n hw hh hnw hnh
    have hx := mainLoop_x_axis width height startTs clock led0 buf n
    have hy := mainLoop_y_axis width height startTs clock led0 buf n
    rw [axisAfter_straight width hw n hnw] at hx
    rw [axisAfter_straight height hh n hnh] at hy
    exact ⟨hx.1, hy.1, hx.2, hy.2⟩
  have h30 := gen 32 32 30 (by decide) (by decide) (by decide) (by decide)
  refine ⟨fun width height n _ hw _ hh hnw hnh => gen width height n hw hh hnw hnh, ?_, ?_⟩
  · exact ⟨h30.1, h30.2.1, h30.2.2.1, h30.2.2.2⟩
  · obtain ⟨hx, hy, hdx, hdy⟩ := h30
    have e : mainLoop 32 32 startTs clock led0 buf 31 =
        (loopBody 32 32 startTs (clock 30) (mainLoop 32 32 startTs clock led0 buf 30)).1 := rfl
    rw [e, loopBody_x, loopBody_dx, loopBody_y, loopBody_dy, hx, hy, hdx, hdy]
    decide

theorem straight_line_until_contact_witness :
    (2 ≤ 128 ∧ 128 < UINT_MOD ∧ 2 ≤ 32 ∧ 32 < UINT_MOD ∧ 1 + 30 < 128 ∧ 1 + 30 < 32) ∧
    (mainLoop 128 32 0 (fun k => 101000 * k) false (fun _ _ => false) 30).x = 1 + 30 ∧
    (mainLoop 128 32 0 (fun k => 101000 * k) false (fun _ _ => false) 30).y = 1 + 30 ∧
    (mainLoop 128 32 0 (fun k => 101000 * k) false (fun _ _ => false) 30).dx = 1 ∧
    (mainLoop 128 32 0 (fun k => 101000 * k) false (fun _ _ => false) 30).dy = 1 :=
  ⟨⟨by decide, by decide, by decide, by decide, by decide, by decide⟩,
   (straight_line_until_contact 0 (fun k => 101000 * k) false (fun _ _ => false)).1 128 32 30
     (by decide) (by decide) (by decide) (by decide) (by decide) (by decide)⟩

/-! ## C8: the unsigned update refines the signed rule -/

theorem encodeDelta_one : encodeDelta 1 = 1 := by decide

theorem encodeDelta_neg_one : encodeDelta (-1) = UINT_MOD - 1 := by decide

/-- C8: for `2 <= width < 2^32 - 1`, `x < width` and a signed delta `d` of `+1` or `-1`, the
32-bit unsigned update of the code, run on `d mod 2^32`, yields the coordinate and the
(encoded) delta of the signed reference rule of the specification. -/
theorem unsigned_update_refines_signed_rule (width x : Nat) (d : Int)
    (hw2 : 2 ≤ width) (hw : width < UINT_MOD - 1) (hx : x < width) (hd : d = 1 ∨ d = -1) :
    ((reflectStep width x (encodeDelta d)).1 : Int) = (refReflect width x d).1 ∧
    (reflectStep width x (encodeDelta d)).2 = encodeDelta (refReflect width x d).2 := by
  have hw' : width < UINT_MOD := by unfold UINT_MOD at hw ⊢; omega
  rcases hd with rfl | rfl
  · rw [encodeDelta_one]
    by_cases he : x + 1 = width
    · rw [reflectStep_inc_edge width x hw' hw2 he]
      have hc : ((x : Int) + 1 < 0 ∨ (x : Int) + 1 ≥ (width : Int)) := Or.inr (by omega)
      simp only [refReflect, if_pos hc]
      refine ⟨by omega, ?_⟩
      exact encodeDelta_neg_one.symm
    · rw [reflectStep_inc_inside width x hw' (by omega)]
      have hc : ¬ ((x : Int) + 1 < 0 ∨ (x : Int) + 1 ≥ (width : Int)) := by omega
      simp only [refReflect, if_neg hc]
      exact ⟨by omega, encodeDelta_one.symm⟩
  · rw [encodeDelta_neg_one]
    by_cases h0 : x = 0
    · subst h0
      rw [reflectStep_dec_edge width hw']
      have hc : (((0 : Nat) : Int) + -1 < 0 ∨ ((0 : Nat) : Int) + -1 ≥ (width : Int)) :=
        Or.inl (by omega)
      simp only [refReflect, if_pos hc]
      exact ⟨by omega, by simpa using encodeDelta_one.symm⟩
    · rw [reflectStep_dec_inside width x hw' (by omega) hx]
      have hc : ¬ ((x : Int) + -1 < 0 ∨ (x : Int) + -1 ≥ (width : Int)) := by omega
      simp only [refReflect, if_neg hc]
      exact ⟨by omega, encodeDelta_neg_one.symm⟩

theorem unsigned_update_refines_signed_rule_witness :
    (2 ≤ 128 ∧ 128 < UINT_MOD - 1 ∧ 0 < 128 ∧ ((-1 : Int) = 1 ∨ (-1 : Int) = -1)) ∧
    ((reflectStep 128 0 (encodeDelta (-1))).1 : Int) = (refReflect (128 : Nat) (0 : Nat) (-1)).1 ∧
    (reflectStep 128 0 (encodeDelta (-1))).2 = encodeDelta (refReflect (128 : Nat) (0 : Nat) (-1)).2 :=
  ⟨⟨by decide, by decide, by decide, by decide⟩,
   unsigned_update_refines_signed_rule 128 0 (-1) (by decide) (by decide) (by decide)
     (by decide)⟩

/-! ## C9: closed form of the bounce -/

theorem succ_mod_cases (k p : Nat) (hp : 0 < p) :
    (k % p + 1 = p ∧ (k + 1) % p = 0) ∨ (k % p + 1 < p ∧ (k + 1) % p = k % p + 1) := by
  have hlt : k % p < p := Nat.mod_lt k hp
  have e : (k + 1) % p = (k % p + 1) % p := by
    rw [Nat.add_mod k 1 p]
    by_cases h1 : p = 1
    · subst h1; simp [Nat.mod_one]
    · rw [Nat.mod_eq_of_lt (show 1 < p by omega)]
  by_cases hc : k % p + 1 = p
  · left
    refine ⟨hc, ?_⟩
    rw [e, hc, Nat.mod_self]
  · right
    have hl : k % p + 1 < p := by omega
    exact ⟨hl, by rw [e, Nat.mod_eq_of_lt hl]⟩

/-- Coordinate and delta of an axis after `n` ticks in closed form. -/
theorem axisAfter_closed (w : Nat) (hw2 : 2 ≤ w) (hw : w < UINT_MOD) (n : Nat) :
    (axisAfter w n).1 = tri w (n + 1) ∧
    (axisAfter w n).2 =
      (if 1 ≤ (n + 1) % (2 * (w - 1)) ∧ (n + 1) % (2 * (w - 1)) ≤ w - 1 then 1
       else UINT_MOD - 1) := by
  induction n with
  | zero =>
    have h1 : (0 + 1) % (2 * (w - 1)) = 1 := Nat.mod_eq_of_lt (by omega)
    refine ⟨?_, ?_⟩
    · show 1 = tri w (0 + 1)
      simp only [tri, h1]
      rw [if_pos (by omega)]
    · show 1 = _
      rw [h1, if_pos ⟨by omega, by omega⟩]
  | succ n ih =>
    obtain ⟨ihx, ihd⟩ := ih
    have hp : 0 < 2 * (w - 1) := by omega
    have hm : (n + 1) % (2 * (w - 1)) < 2 * (w - 1) := Nat.mod_lt _ hp
    have hs := succ_mod_cases (n + 1) (2 * (w - 1)) hp
    show (reflectStep w (axisAfter w n).1 (axisAfter w n).2).1 = tri w (n + 1 + 1) ∧
      (reflectStep w (axisAfter w n).1 (axisAfter w n).2).2 = _
    rw [ihx, ihd]
    simp only [tri] at *
    generalize (n + 1) % (2 * (w - 1)) = m at *
    generalize (n + 1 + 1) % (2 * (w - 1)) = m' at *
    by_cases c1 : 1 ≤ m ∧ m ≤ w - 1
    · rw [if_pos c1, if_pos c1.2]
      by_cases c2 : m + 1 = w
      · rw [reflectStep_inc_edge w m hw hw2 c2]
        refine ⟨?_, ?_⟩
        · show w - 2 = _
          split_ifs <;> omega
        · show UINT_MOD - 1 = _
          rw [if_neg (by omega)]
      · rw [reflectStep_inc_inside w m hw (by omega)]
        refine ⟨?_, ?_⟩
        · show m + 1 = _
          split_ifs <;> omega
        · show 1 = _
          rw [if_pos (by omega)]
    · rw [if_neg c1]
      by_cases c0 : m = 0
      · subst c0
        rw [if_pos (by omega), reflectStep_dec_edge w hw]
        refine ⟨?_, ?_⟩
        · show 1 = _
          split_ifs <;> omega
        · show 1 = _
          rw [if_pos (by omega)]
      · rw [if_neg (by omega), reflectStep_dec_inside w _ hw (by omega) (by omega)]
        refine ⟨?_, ?_⟩
        · show 2 * (w - 1) - m - 1 = _
          split_ifs <;> omega
        · show UINT_MOD - 1 = _
          rw [if_neg (by omega)]

theorem tri_periodic (w k : Nat) : tri w (k + 2 * (w - 1)) = tri w k := by
  simp only [tri, Nat.add_mod_right]

theorem tri_of_le (w v : Nat) (hw2 : 2 ≤ w) (hv : v ≤ w - 1) : tri w v = v := by
  have h1 : v % (2 * (w - 1)) = v := Nat.mod_eq_of_lt (by omega)
  simp only [tri, h1]
  rw [if_pos hv]

theorem tri_full_period (w : Nat) (_hw2 : 2 ≤ w) : tri w (2 * (w - 1)) = 0 := by
  simp only [tri, Nat.mod_self]
  rw [if_pos (by omega)]

/-- Every column of `[0, w - 1]` is visited. -/
theorem axisAfter_surjective (w : Nat) (hw2 : 2 ≤ w) (hw : w < UINT_MOD) (v : Nat)
    (hv : v ≤ w - 1) : ∃ n, (axisAfter w n).1 = v := by
  by_cases h0 : v = 0
  · refine ⟨2 * (w - 1) - 1, ?_⟩
    rw [(axisAfter_closed w hw2 hw _).1, h0]
    have e : 2 * (w - 1) - 1 + 1 = 2 * (w - 1) := by omega
    rw [e, tri_full_period w hw2]
  · refine ⟨v - 1, ?_⟩
    rw [(axisAfter_closed w hw2 hw _).1]
    have e : v - 1 + 1 = v := by omega
    rw [e, tri_of_le w v hw2 hv]

theorem axisAfter_periodic (w : Nat) (hw2 : 2 ≤ w) (hw : w < UINT_MOD) (n : Nat) :
    (axisAfter w (n + 2 * (w - 1))).1 = (axisAfter w n).1 := by
  rw [(axisAfter_closed w hw2 hw _).1, (axisAfter_closed w hw2 hw _).1]
  have e : n + 2 * (w - 1) + 1 = n + 1 + 2 * (w - 1) := by omega
  rw [e, tri_periodic]

/-- C9: for 32-bit `width, height >= 2` and every `n`, the `x` coordinate after `n` ticks from
`x = 1, dx = 1` is `tri width (n + 1)`; it is periodic with period `2 * (width - 1)` and takes
every value of `[0, width - 1]`, the columns `0` and `width - 1` included. The same holds for `y`
with `height`. -/
theorem bounce_closed_form (width height : Nat)
    (hw2 : 2 ≤ width) (hw : width < UINT_MOD) (hh2 : 2 ≤ height) (hh : height < UINT_MOD)
    (startTs : Nat) (clock : Nat → Nat) (led0 : Bool) (buf : Surface) :
    (∀ n, (mainLoop width height startTs clock led0 buf n).x = tri width (n + 1) ∧
          (mainLoop width height startTs clock led0 buf n).y = tri height (n + 1)) ∧
    (∀ n, (mainLoop width height startTs clock led0 buf (n + 2 * (width - 1))).x =
            (mainLoop width height startTs clock led0 buf n).x ∧
          (mainLoop width height startTs clock led0 buf (n + 2 * (height - 1))).y =
            (mainLoop width height startTs clock led0 buf n).y) ∧
    (∀ v, v ≤ width - 1 → ∃ n, (mainLoop width height startTs clock led0 buf n).x = v) ∧
    (∀ v, v ≤ height - 1 → ∃ n, (mainLoop width height startTs clock led0 buf n).y = v) ∧
    (∃ n, (mainLoop width height startTs clock led0 buf n).x = 0) ∧
    (∃ n, (mainLoop width height startTs clock led0 buf n).x = width - 1) := by
  have hx := fun n => (mainLoop_x_axis width height startTs clock led0 buf n).1
  have hy := fun n => (mainLoop_y_axis width height startTs clock led0 buf n).1
  have sx : ∀ v, v ≤ width - 1 →
      ∃ n, (mainLoop width height startTs clock led0 buf n).x = v := by
    intro v hv
    obtain ⟨n, hn⟩ := axisAfter_surjective width hw2 hw v hv
    exact ⟨n, by rw [hx, hn]⟩
  refine ⟨?_, ?_, sx, ?_, sx 0 (by omega), sx (width - 1) (le_refl _)⟩
  · intro n
    rw [hx, hy]
    exact ⟨(axisAfter_closed width hw2 hw n).1, (axisAfter_closed height hh2 hh n).1⟩
  · intro n
    rw [hx, hx, hy, hy]
    exact ⟨axisAfter_periodic width hw2 hw n, axisAfter_periodic height hh2 hh n⟩
  · intro v hv
    obtain ⟨n, hn⟩ := axisAfter_surjective height hh2 hh v hv
    exact ⟨n, by rw [hy, hn]⟩

theorem bounce_closed_form_witness :
    (2 ≤ 128 ∧ 128 < UINT_MOD ∧ 2 ≤ 32 ∧ 32 < UINT_MOD) ∧
    (mainLoop 128 32 0 (fun k => 101000 * k) false (fun _ _ => false) 300).x = tri 128 (300 + 1) ∧
    (mainLoop 128 32 0 (fun k => 101000 * k) false (fun _ _ => false) 300).y = tri 32 (300 + 1) :=
  ⟨⟨by decide, by decide, by decide, by decide⟩,
   (bounce_closed_form 128 32 (by decide) (by decide) (by decide) (by decide)
      0 (fun k => 101000 * k) false (fun _ _ => false)).1 300⟩

/-! ## Fault signal -/

theorem blinkPairs_succ (k : Nat) : blinkPairs (k + 1) = onOffPair ++ blinkPairs k := by
  simp [blinkPairs, List.replicate_succ]

theorem blinkPairs_add_two (k : Nat) : blinkPairs (k + 2) = blipBody ++ blinkPairs k := by
  rw [blinkPairs_succ, blinkPairs_succ]
  rfl

theorem blipLoop_eq (N : Nat) : ∀ (r i : Nat), N - i = r → blipLoop N i = blinkPairs (2 * r) := by
  intro r
  induction r with
  | zero =>
    intro i h
    rw [blipLoop, if_neg (by omega)]
    rfl
  | succ r ih =>
    intro i h
    rw [blipLoop, if_pos (by omega), ih (i + 1) (by omega)]
    have e : 2 * (r + 1) = 2 * r + 2 := by omega
    rw [e, blinkPairs_add_two]

theorem errorExitIteration_eq (N : Nat) : errorExitIteration N = blinkCycle N := by
  unfold errorExitIteration blinkCycle
  rw [blipLoop_eq N N 0 (by omega)]

theorem errorExit_succ (N n : Nat) : errorExit N (n + 1) = errorExit N n ++ blinkCycle N := by
  show errorExit N n ++ errorExitIteration N = _
  rw [errorExitIteration_eq]

theorem errorExit_eq (N n : Nat) : errorExit N n = (List.replicate n (blinkCycle N)).flatten := by
  induction n with
  | zero => rfl
  | succ n ih =>
    rw [errorExit_succ, ih, List.replicate_succ', List.flatten_append]
    simp

theorem blinkPairs_length (k : Nat) : (blinkPairs k).length = 4 * k := by
  induction k with
  | zero => rfl
  | succ k ih =>
    rw [blinkPairs_succ, List.length_append, ih]
    show 4 + 4 * k = 4 * (k + 1)
    omega

theorem blinkCycle_length (N : Nat) : (blinkCycle N).length = 8 * N + 1 := by
  unfold blinkCycle
  rw [List.length_append, blinkPairs_length]
  show 4 * (2 * N) + 1 = 8 * N + 1
  omega

theorem errorExit_length (N n : Nat) : (errorExit N n).length = n * (8 * N + 1) := by
  induction n with
  | zero => simp [errorExit]
  | succ n ih =>
    rw [errorExit_succ, List.length_append, ih, blinkCycle_length]
    exact (Nat.succ_mul n (8 * N + 1)).symm

theorem blinkPairs_signalOnly (k : Nat) : ∀ e ∈ blinkPairs k, e.isSignalOnly = true := by
  induction k with
  | zero => intro e he; simp [blinkPairs] at he
  | succ k ih =>
    intro e he
    rw [blinkPairs_succ, List.mem_append] at he
    rcases he with he | he
    · simp only [onOffPair, List.mem_cons, List.mem_singleton, List.not_mem_nil, or_false] at he
      rcases he with rfl | rfl | rfl | rfl <;> rfl
    · exact ih e he

theorem blinkCycle_signalOnly (N : Nat) : ∀ e ∈ blinkCycle N, e.isSignalOnly = true := by
  intro e he
  unfold blinkCycle at he
  rw [List.mem_append] at he
  rcases he with he | he
  · exact blinkPairs_signalOnly _ e he
  · rw [List.mem_singleton] at he
    subst he; rfl

theorem errorExit_signalOnly (N n : Nat) : ∀ e ∈ errorExit N n, e.isSignalOnly = true := by
  induction n with
  | zero => intro e he; simp [errorExit] at he
  | succ n ih =>
    intro e he
    rw [errorExit_succ, List.mem_append] at he
    rcases he with he | he
    · exact ih e he
    · exact blinkCycle_signalOnly N e he

theorem onOffPairs_pair_append (l : List Event) :
    onOffPairs (onOffPair ++ l) = 1 + onOffPairs l := by
  simp [onOffPair, onOffPairs, List.filter]

theorem onOffPairs_blinkPairs_append (k : Nat) (l : List Event) :
    onOffPairs (blinkPairs k ++ l) = k + onOffPairs l := by
  induction k with
  | zero => simp [blinkPairs]
  | succ k ih =>
    rw [blinkPairs_succ, List.append_assoc, onOffPairs_pair_append, ih]
    omega

theorem onOffPairs_blinkPairs (k : Nat) : onOffPairs (blinkPairs k) = k := by
  have h := onOffPairs_blinkPairs_append k []
  simpa [onOffPairs] using h

theorem pause_not_mem_blinkPairs (k : Nat) : Event.sleepMs 1000 ∉ blinkPairs k := by
  induction k with
  | zero => simp [blinkPairs]
  | succ k ih =>
    rw [blinkPairs_succ, List.mem_append]
    rintro (h | h)
    · simp [onOffPair] at h
    · exact ih h

theorem faultSignal_first (c : Caught) : faultSignal c 1 = blinkCycle (catchBlips c) := by
  unfold faultSignal
  rw [errorExit_succ]
  rfl

theorem errorExit_le_extends (N n m : Nat) (h : n ≤ m) :
    ∃ t, errorExit N n ++ t = errorExit N m := by
  induction m with
  | zero =>
    have : n = 0 := by omega
    subst this
    exact ⟨[], by simp⟩
  | succ m ih =>
    by_cases hc : n = m + 1
    · subst hc
      exact ⟨[], by simp⟩
    · obtain ⟨t, ht⟩ := ih (by omega)
      refine ⟨t ++ blinkCycle N, ?_⟩
      rw [errorExit_succ, ← ht, List.append_assoc]

/-! ## C3: fault signature per failure class -/

/-- C3 (as stated) fails: after a caught `std::runtime_error` the events up to the first
1000 ms pause hold 4 on/off pairs, not 2; after any other exception they hold 6, not 3. -/
theorem fault_signature_counterexample :
    faultSignal Caught.runtimeError 1 = blinkPairs 4 ++ [Event.sleepMs 1000] ∧
    onOffPairs (faultSignal Caught.runtimeError 1) = 4 ∧
    ¬ (faultSignal Caught.runtimeError 1 = blinkPairs 2 ++ [Event.sleepMs 1000]) ∧
    ¬ (onOffPairs (faultSignal Caught.runtimeError 1) = 2) ∧
    onOffPairs (faultSignal Caught.other 1) = 6 ∧
    ¬ (onOffPairs (faultSignal Caught.other 1) = 3) := by
  rw [faultSignal_first, faultSignal_first]
  decide

/-- C3 (amended): when a `std::runtime_error` is caught every blink cycle consists of exactly
4 indicator on/off pairs (2 loop iterations of two pairs each) followed by a 1000 ms pause;
when any other exception is caught every cycle consists of exactly 6 on/off pairs followed by
a 1000 ms pause. The pairs themselves contain no 1000 ms sleep. -/
theorem fault_signature_per_class (c : Caught) (n : Nat) :
    faultSignal c (n + 1) =
      faultSignal c n ++ (blinkPairs (2 * catchBlips c) ++ [Event.sleepMs 1000]) ∧
    onOffPairs (blinkPairs (2 * catchBlips c)) = 2 * catchBlips c ∧
    Event.sleepMs 1000 ∉ blinkPairs (2 * catchBlips c) ∧
    2 * catchBlips Caught.runtimeError = 4 ∧
    2 * catchBlips Caught.other = 6 := by
  refine ⟨?_, onOffPairs_blinkPairs _, pause_not_mem_blinkPairs _, rfl, rfl⟩
  unfold faultSignal
  rw [errorExit_succ]
  rfl

theorem fault_signature_per_class_witness :
    faultSignal Caught.other 1 =
      faultSignal Caught.other 0 ++ (blinkPairs (2 * catchBlips Caught.other)
        ++ [Event.sleepMs 1000]) ∧
    onOffPairs (blinkPairs (2 * catchBlips Caught.other)) = 2 * catchBlips Caught.other :=
  ⟨(fault_signature_per_class Caught.other 0).1, (fault_signature_per_class Caught.other 0).2.1⟩

/-! ## C4: trace of the fault signal -/

/-- C4: for every `numBlips = N`, the events of `errorExit` over its first `n` loop iterations
are `n` copies of the fixed cycle `(on, sleep 500, off, sleep 500)^(2N), sleep 1000`; every
list of events that starts the trace starts every longer repetition of the cycle; the cycle
depends on `N` only; another full cycle follows after any number of iterations (the function
never returns); and every event is an indicator call or a sleep (no display operation). -/
theorem errorExit_trace_is_repeated_cycle (N n : Nat) :
    errorExit N n = (List.replicate n (blinkCycle N)).flatten ∧
    blinkCycle N = (List.replicate (2 * N)
      [Event.ledOn, Event.sleepMs 500, Event.ledOff, Event.sleepMs 500]).flatten
      ++ [Event.sleepMs 1000] ∧
    (∀ (l : List Event) (m : Nat), l <+: errorExit N n → n ≤ m →
      l <+: (List.replicate m (blinkCycle N)).flatten) ∧
    errorExit N (n + 1) = errorExit N n ++ blinkCycle N ∧
    (errorExit N n).length = n * (8 * N + 1) ∧
    (errorExit N n).length < (errorExit N (n + 1)).length ∧
    (∀ e ∈ errorExit N n, e.isSignalOnly = true) := by
  refine ⟨errorExit_eq N n, rfl, ?_, errorExit_succ N n, errorExit_length N n, ?_,
    errorExit_signalOnly N n⟩
  · intro l m hl hnm
    obtain ⟨t, ht⟩ := hl
    obtain ⟨u, hu⟩ := errorExit_le_extends N n m hnm
    refine ⟨t ++ u, ?_⟩
    rw [← errorExit_eq, ← hu, ← ht, List.append_assoc]
  · rw [errorExit_length, errorExit_length]
    have : n * (8 * N + 1) + (8 * N + 1) = (n + 1) * (8 * N + 1) :=
      (Nat.succ_mul n (8 * N + 1)).symm
    omega

theorem errorExit_trace_is_repeated_cycle_witness :
    errorExit 2 3 = (List.replicate 3 (blinkCycle 2)).flatten ∧
    (errorExit 2 3).length = 3 * (8 * 2 + 1) :=
  ⟨(errorExit_trace_is_repeated_cycle 2 3).1, (errorExit_trace_is_repeated_cycle 2 3).2.2.2.2.1⟩

/-! ## Frame-rate monitor -/

theorem loopBody_numBlips (w h st now : Nat) (s : LoopState) :
    (loopBody w h st now s).1.numBlips = uadd (if s.numBlips ≥ 5 then 0 else s.numBlips) 1 := by
  by_cases c : s.numBlips ≥ 5 <;> simp [loopBody, c]

theorem loopBody_led (w h st now : Nat) (s : LoopState) :
    (loopBody w h st now s).1.led = (if s.numBlips ≥ 5 then !s.led else s.led) := by
  by_cases c : s.numBlips ≥ 5 <;> simp [loopBody, c]

theorem loopBody_report (w h st now : Nat) (s : LoopState) :
    (loopBody w h st now s).2 =
      (if s.numBlips ≥ 5 ∧ s.led = false then
        some { frame := s.frame, divisor := usub64 now st / 1000000 }
       else none) := by
  by_cases c : s.numBlips ≥ 5 <;> cases hl : s.led <;> simp [loopBody, c, hl]

/-- Closed form of the monitor variables after `k` ticks. -/
theorem monitor_closed (w h st : Nat) (clock : Nat → Nat) (led0 : Bool) (buf : Surface)
    (k : Nat) :
    (mainLoop w h st clock led0 buf k).numBlips = (if k = 0 then 0 else (k - 1) % 5 + 1) ∧
    (mainLoop w h st clock led0 buf k).led = (if ((k - 1) / 5) % 2 = 0 then led0 else !led0) ∧
    (mainLoop w h st clock led0 buf k).frame = k := by
  induction k with
  | zero => exact ⟨rfl, rfl, rfl⟩
  | succ k ih =>
    obtain ⟨hn, hl, hf⟩ := ih
    rw [mainLoop_succ, loopBody_numBlips, loopBody_led, loopBody_frame, hn, hl, hf]
    refine ⟨?_, ?_, rfl⟩
    · unfold uadd UINT_MOD
      rw [if_neg (Nat.succ_ne_zero k)]
      by_cases h0 : k = 0
      · subst h0; decide
      · rw [if_neg h0]
        by_cases c : (k - 1) % 5 + 1 ≥ 5
        · rw [if_pos c]; omega
        · rw [if_neg c]; omega
    · have e : k + 1 - 1 = k := by omega
      rw [e]
      by_cases c : (if k = 0 then 0 else (k - 1) % 5 + 1) ≥ 5
      · rw [if_pos c]
        have hk : k ≠ 0 := by
          intro h0; rw [if_pos h0] at c; omega
        rw [if_neg hk] at c
        by_cases p : ((k - 1) / 5) % 2 = 0
        · have q : ¬ (k / 5) % 2 = 0 := by omega
          rw [if_pos p, if_neg q]
        · have q : (k / 5) % 2 = 0 := by omega
          rw [if_neg p, if_pos q, Bool.not_not]
      · rw [if_neg c]
        have q : k / 5 = (k - 1) / 5 := by
          by_cases h0 : k = 0
          · subst h0; rfl
          · rw [if_neg h0] at c; omega
        rw [q]

theorem numBlips_ge_five_iff (w h st : Nat) (clock : Nat → Nat) (led0 : Bool) (buf : Surface)
    (k : Nat) :
    (mainLoop w h st clock led0 buf k).numBlips ≥ 5 ↔ (0 < k ∧ k % 5 = 0) := by
  rw [(monitor_closed w h st clock led0 buf k).1]
  split_ifs <;> omega

/-- The report of the iteration after `k` ticks, in closed form. -/
theorem reportAt_eq (w h st : Nat) (clock : Nat → Nat) (led0 : Bool) (buf : Surface) (k : Nat) :
    reportAt w h st clock led0 buf k =
      (if (0 < k ∧ k % 5 = 0) ∧ (if (k / 5) % 2 = 0 then led0 else !led0) = true then
        some { frame := k, divisor := usub64 (clock k) st / 1000000 }
       else none) := by
  unfold reportAt
  rw [loopBody_report, (monitor_closed w h st clock led0 buf k).2.2]
  by_cases c : 0 < k ∧ k % 5 = 0
  · have c5 := (numBlips_ge_five_iff w h st clock led0 buf k).2 c
    rw [(monitor_closed w h st clock led0 buf k).2.1]
    by_cases p : ((k - 1) / 5) % 2 = 0
    · have q : ¬ (k / 5) % 2 = 0 := by omega
      rw [if_pos p, if_neg q]
      cases led0 <;> simp [c5, c]
    · have q : (k / 5) % 2 = 0 := by omega
      rw [if_neg p, if_pos q]
      cases led0 <;> simp [c5, c]
  · have c5 : ¬ (mainLoop w h st clock led0 buf k).numBlips ≥ 5 :=
      fun hc => c ((numBlips_ge_five_iff w h st clock led0 buf k).1 hc)
    rw [if_neg (fun hc => c5 hc.1), if_neg (fun hc => c hc.1)]

theorem led_after (w h st : Nat) (clock : Nat → Nat) (led0 : Bool) (buf : Surface) (k : Nat) :
    (mainLoop w h st clock led0 buf (k + 1)).led = (if (k / 5) % 2 = 0 then led0 else !led0) := by
  have e := (monitor_closed w h st clock led0 buf (k + 1)).2.1
  rw [show k + 1 - 1 = k by omega] at e
  exact e

theorem reportAt_isSome_iff (w h st : Nat) (clock : Nat → Nat) (led0 : Bool) (buf : Surface)
    (k : Nat) :
    (reportAt w h st clock led0 buf k).isSome = true ↔
      ((0 < k ∧ k % 5 = 0) ∧ (mainLoop w h st clock led0 buf (k + 1)).led = true) := by
  rw [reportAt_eq, led_after]
  by_cases c : (0 < k ∧ k % 5 = 0) ∧ (if (k / 5) % 2 = 0 then led0 else !led0) = true
  · rw [if_pos c]
    exact ⟨fun _ => c, fun _ => rfl⟩
  · rw [if_neg c]
    exact ⟨fun hf => by simp at hf, fun hc => absurd hc c⟩

theorem reportAt_eq_none_iff (w h st : Nat) (clock : Nat → Nat) (led0 : Bool) (buf : Surface)
    (k : Nat) :
    reportAt w h st clock led0 buf k = none ↔
      ¬ ((0 < k ∧ k % 5 = 0) ∧ (mainLoop w h st clock led0 buf (k + 1)).led = true) := by
  rw [← reportAt_isSome_iff]
  cases reportAt w h st clock led0 buf k <;> simp

/-- A clock that advances by at least 100 ms per tick has advanced by `100000 * k` after `k`. -/
theorem clock_lower_bound (clock : Nat → Nat) (hadv : ∀ k, clock k + 100000 ≤ clock (k + 1))
    (k : Nat) : clock 0 + 100000 * k ≤ clock k := by
  induction k with
  | zero => simp
  | succ k ih =>
    have := hadv k
    omega

/-- From the tenth tick on the divisor of a rate report is at least one. -/
theorem divisor_pos_from_tenth_tick (startTs : Nat) (clock : Nat → Nat)
    (h0 : startTs ≤ clock 0) (hadv : ∀ k, clock k + 100000 ≤ clock (k + 1))
    (k : Nat) (hk : 10 ≤ k) (hlt : clock k < U64_MOD) :
    1 ≤ usub64 (clock k) startTs / 1000000 := by
  have hb := clock_lower_bound clock hadv k
  unfold U64_MOD at hlt
  have hs : startTs % 18446744073709551616 = startTs := Nat.mod_eq_of_lt (by omega)
  have e : usub64 (clock k) startTs = clock k - startTs := by
    unfold usub64 U64_MOD
    rw [hs]
    omega
  rw [e]
  omega

/-! ## C6: schedule of the rate report -/

/-- C6: for every initial indicator state, every clock and every `k`, the iteration that follows
`k` completed ticks runs the rate computation exactly when it toggled the indicator
(`numBlips >= 5`, which holds exactly when `k` is a positive multiple of 5) and the indicator is
on after the toggle; a report is followed by a report 10 ticks later with none in between;
and no report occurs when the indicator is off after the iteration. -/
theorem rate_report_schedule (width height startTs : Nat) (clock : Nat → Nat) (led0 : Bool)
    (buf : Surface) (k : Nat) :
    ((reportAt width height startTs clock led0 buf k).isSome = true ↔
      ((mainLoop width height startTs clock led0 buf k).numBlips ≥ 5 ∧
       (mainLoop width height startTs clock led0 buf (k + 1)).led = true)) ∧
    ((mainLoop width height startTs clock led0 buf k).numBlips ≥ 5 ↔ (0 < k ∧ k % 5 = 0)) ∧
    ((mainLoop width height startTs clock led0 buf (k + 1)).led =
      (if (mainLoop width height startTs clock led0 buf k).numBlips ≥ 5
       then !(mainLoop width height startTs clock led0 buf k).led
       else (mainLoop width height startTs clock led0 buf k).led)) ∧
    ((reportAt width height startTs clock led0 buf k).isSome = true →
      (reportAt width height startTs clock led0 buf (k + 10)).isSome = true ∧
      ∀ j, k < j → j < k + 10 → reportAt width height startTs clock led0 buf j = none) ∧
    ((mainLoop width height startTs clock led0 buf (k + 1)).led = false →
      reportAt width height startTs clock led0 buf k = none) := by
  refine ⟨?_, numBlips_ge_five_iff width height startTs clock led0 buf k, ?_, ?_, ?_⟩
  · rw [reportAt_isSome_iff, numBlips_ge_five_iff]
  · rw [mainLoop_succ, loopBody_led]
  · intro hr
    rw [reportAt_isSome_iff, led_after] at hr
    obtain ⟨⟨hk0, hk5⟩, hled⟩ := hr
    refine ⟨?_, ?_⟩
    · rw [reportAt_isSome_iff, led_after]
      have e : (k + 10) / 5 % 2 = k / 5 % 2 := by omega
      rw [e]
      exact ⟨⟨by omega, by omega⟩, hled⟩
    · intro j hj1 hj2
      rw [reportAt_eq_none_iff, led_after]
      rintro ⟨⟨_, hj5⟩, hjl⟩
      have hj : j = k + 5 := by omega
      subst hj
      by_cases p : k / 5 % 2 = 0
      · have q : ¬ (k + 5) / 5 % 2 = 0 := by omega
        rw [if_pos p] at hled
        rw [if_neg q, hled] at hjl
        exact absurd hjl (by decide)
      · have q : (k + 5) / 5 % 2 = 0 := by omega
        rw [if_neg p] at hled
        rw [if_pos q] at hjl
        rw [hjl] at hled
        exact absurd hled (by decide)
  · intro hoff
    rw [reportAt_eq_none_iff]
    rintro ⟨_, hon⟩
    rw [hoff] at hon
    exact absurd hon (by decide)

theorem rate_report_schedule_witness :
    (reportAt 128 32 1500000 (steadyClock 1500000 101000) false (fun _ _ => false) 5).isSome
      = true ∧
    (reportAt 128 32 1500000 (steadyClock 1500000 101000) false (fun _ _ => false) 15).isSome
      = true :=
  have h5 : (reportAt 128 32 1500000 (steadyClock 1500000 101000) false
      (fun _ _ => false) 5).isSome = true := by
    rw [reportAt_eq]; decide
  ⟨h5, ((rate_report_schedule 128 32 1500000 (steadyClock 1500000 101000) false
      (fun _ _ => false) 5).2.2.2.1 h5).1⟩

/-! ## C5: the divisor of the rate report -/

/-- C5, evaluated at a run that meets its premises: the indicator starts off, the clock starts
at `startTs` and advances by 101 ms per tick (at least the 100 ms delay). No report runs before
the iteration that follows 5 ticks; that iteration turns the indicator on and runs the report
with `frame = 5` and a divisor `(time_us_64() - startTs) / 1000000` of `505000 / 1000000 = 0`. -/
theorem first_rate_report_divides_by_zero :
    steadyClock 1500000 101000 0 ≥ 1500000 ∧
    (∀ k, steadyClock 1500000 101000 k + 100000 ≤ steadyClock 1500000 101000 (k + 1)) ∧
    (∀ k, k < 5 →
      reportAt 128 32 1500000 (steadyClock 1500000 101000) false (fun _ _ => false) k = none) ∧
    (mainLoop 128 32 1500000 (steadyClock 1500000 101000) false (fun _ _ => false) 5).led
      = false ∧
    (mainLoop 128 32 1500000 (steadyClock 1500000 101000) false (fun _ _ => false) 6).led
      = true ∧
    usub64 (steadyClock 1500000 101000 5) 1500000 = 505000 ∧
    reportAt 128 32 1500000 (steadyClock 1500000 101000) false (fun _ _ => false) 5
      = some { frame := 5, divisor := 0 } := by
  refine ⟨by decide, ?_, ?_, ?_, ?_, by decide, ?_⟩
  · intro k
    unfold steadyClock
    omega
  · intro k hk
    rw [reportAt_eq_none_iff]
    rintro ⟨⟨h0, h5⟩, _⟩
    omega
  · rw [(monitor_closed _ _ _ _ _ _ 5).2.1]; decide
  · rw [led_after]; decide
  · rw [reportAt_eq]; decide

/-! ## Display surface and the first screen -/

theorem usub_one (n : Nat) (h1 : 1 ≤ n) (hn : n < UINT_MOD) : usub n 1 = n - 1 := by
  unfold usub UINT_MOD
  unfold UINT_MOD at hn
  omega

theorem Surface.set_apply (s : Surface) (x y a b : Nat) :
    (s.set x y) a b = (if a = x ∧ b = y then true else s a b) := rfl

theorem Surface.reset_apply (s : Surface) (x y a b : Nat) :
    (s.reset x y) a b = (if a = x ∧ b = y then false else s a b) := rfl

/-- Pixels lit by the first loop of the first screen (rows `0` and `b`). -/
theorem foldl_rows (b : Nat) (n : Nat) (s0 : Surface) (px py : Nat) :
    ((List.range n).foldl (fun (t : Surface) x => (t.set x 0).set x b) s0) px py = true ↔
      (s0 px py = true ∨ (px < n ∧ (py = 0 ∨ py = b))) := by
  induction n with
  | zero => simp
  | succ n ih =>
    rw [List.range_succ, List.foldl_append, List.foldl_cons, List.foldl_nil,
      Surface.set_apply, Surface.set_apply]
    by_cases c1 : px = n ∧ py = b
    · rw [if_pos c1]
      exact ⟨fun _ => Or.inr ⟨by omega, Or.inr c1.2⟩, fun _ => rfl⟩
    · rw [if_neg c1]
      by_cases c2 : px = n ∧ py = 0
      · rw [if_pos c2]
        exact ⟨fun _ => Or.inr ⟨by omega, Or.inl c2.2⟩, fun _ => rfl⟩
      · rw [if_neg c2, ih]
        constructor
        · rintro (h | ⟨h, h'⟩)
          · exact Or.inl h
          · exact Or.inr ⟨by omega, h'⟩
        · rintro (h | ⟨h, h'⟩)
          · exact Or.inl h
          · refine Or.inr ⟨?_, h'⟩
            rcases h' with h' | h'
            · have : px ≠ n := fun e => c2 ⟨e, h'⟩
              omega
            · have : px ≠ n := fun e => c1 ⟨e, h'⟩
              omega

/-- Pixels lit by the second loop of the first screen (columns `0` and `a`). -/
theorem foldl_cols (a : Nat) (n : Nat) (s0 : Surface) (px py : Nat) :
    ((List.range n).foldl (fun (t : Surface) y => (t.set 0 y).set a y) s0) px py = true ↔
      (s0 px py = true ∨ (py < n ∧ (px = 0 ∨ px = a))) := by
  induction n with
  | zero => simp
  | succ n ih =>
    rw [List.range_succ, List.foldl_append, List.foldl_cons, List.foldl_nil,
      Surface.set_apply, Surface.set_apply]
    by_cases c1 : px = a ∧ py = n
    · rw [if_pos c1]
      exact ⟨fun _ => Or.inr ⟨by omega, Or.inr c1.1⟩, fun _ => rfl⟩
    · rw [if_neg c1]
      by_cases c2 : px = 0 ∧ py = n
      · rw [if_pos c2]
        exact ⟨fun _ => Or.inr ⟨by omega, Or.inl c2.1⟩, fun _ => rfl⟩
      · rw [if_neg c2, ih]
        constructor
        · rintro (h | ⟨h, h'⟩)
          · exact Or.inl h
          · exact Or.inr ⟨by omega, h'⟩
        · rintro (h | ⟨h, h'⟩)
          · exact Or.inl h
          · refine Or.inr ⟨?_, h'⟩
            rcases h' with h' | h'
            · have : py ≠ n := fun e => c2 ⟨h', e⟩
              omega
            · have : py ≠ n := fun e => c1 ⟨h', e⟩
              omega

theorem firstScreen_lit_iff (w h : Nat) (hw1 : 1 ≤ w) (hw : w < UINT_MOD) (hh1 : 1 ≤ h)
    (hh : h < UINT_MOD) (buf : Surface) (px py : Nat) :
    firstScreen w h buf px py = true ↔
      (px < w ∧ py < h ∧ (px = 0 ∨ px = w - 1 ∨ py = 0 ∨ py = h - 1)) := by
  simp only [firstScreen]
  rw [foldl_cols, foldl_rows, usub_one w hw1 hw, usub_one h hh1 hh]
  have hc : ¬ (Surface.clear buf px py = true) := by simp [Surface.clear]
  constructor
  · rintro ((h0 | ⟨h1, h2⟩) | ⟨h1, h2⟩)
    · exact absurd h0 hc
    · refine ⟨h1, by omega, ?_⟩
      rcases h2 with h2 | h2
      · exact Or.inr (Or.inr (Or.inl h2))
      · exact Or.inr (Or.inr (Or.inr h2))
    · refine ⟨by omega, h1, ?_⟩
      rcases h2 with h2 | h2
      · exact Or.inl h2
      · exact Or.inr (Or.inl h2)
  · rintro ⟨h1, h2, h3 | h3 | h3 | h3⟩
    · exact Or.inr ⟨h2, Or.inl h3⟩
    · exact Or.inr ⟨h2, Or.inr h3⟩
    · exact Or.inl (Or.inr ⟨h1, Or.inl h3⟩)
    · exact Or.inl (Or.inr ⟨h1, Or.inr h3⟩)

/-- A tick switches the previously occupied pixel off when the position changes. -/
theorem loopBody_erases_old (w h st now : Nat) (s : LoopState)
    (hm : (reflectStep w s.x s.dx).1 ≠ s.x) :
    (loopBody w h st now s).1.oled s.x s.y = false := by
  rw [loopBody_oled, Surface.set_apply, Surface.reset_apply]
  rw [if_neg (fun hc => hm hc.1.symm), if_pos ⟨rfl, rfl⟩]

/-- A tick lights no pixel other than the new position. -/
theorem loopBody_keeps_off (w h st now : Nat) (s : LoopState) (px py : Nat)
    (hoff : s.oled px py = false)
    (hne : ¬ ((loopBody w h st now s).1.x = px ∧ (loopBody w h st now s).1.y = py)) :
    (loopBody w h st now s).1.oled px py = false := by
  rw [loopBody_oled, Surface.set_apply, Surface.reset_apply]
  rw [if_neg (fun hc => hne ⟨hc.1.symm, hc.2.symm⟩)]
  by_cases c : px = s.x ∧ py = s.y
  · rw [if_pos c]
  · rw [if_neg c]; exact hoff

/-- A pixel that is off stays off as long as the moving pixel is not placed on it. -/
theorem mainLoop_keeps_off (w h st : Nat) (clock : Nat → Nat) (led0 : Bool) (buf : Surface)
    (px py m : Nat) (hoff : (mainLoop w h st clock led0 buf m).oled px py = false) (n : Nat)
    (hne : ∀ j, m < j → j ≤ m + n →
      ¬ ((mainLoop w h st clock led0 buf j).x = px ∧ (mainLoop w h st clock led0 buf j).y = py)) :
    (mainLoop w h st clock led0 buf (m + n)).oled px py = false := by
  induction n with
  | zero => exact hoff
  | succ n ih =>
    have ih' := ih (fun j h1 h2 => hne j h1 (by omega))
    show (mainLoop w h st clock led0 buf (m + n + 1)).oled px py = false
    rw [mainLoop_succ]
    apply loopBody_keeps_off _ _ _ _ _ _ _ ih'
    have := hne (m + n + 1) (by omega) (by omega)
    rw [mainLoop_succ] at this
    exact this

theorem mainLoop_zero_oled (w h st : Nat) (clock : Nat → Nat) (led0 : Bool) (buf : Surface) :
    (mainLoop w h st clock led0 buf 0).oled = firstScreen w h buf := rfl

/-! ## C10: the animation erases the border -/

/-- C10: the first screen lights exactly the surface pixels with `x = 0`, `x = width - 1`,
`y = 0` or `y = height - 1`; for 32-bit `width, height >= 2` every tick from an in-bounds state
moves the position and leaves the previously occupied pixel off, border pixel or not. On the
128 x 32 display the border pixel `(31,31)` is lit by the first screen, is the position after
30 ticks, is off after tick 31, and stays off through every later tick up to which the moving
pixel is not placed on it. -/
theorem animation_erases_border (startTs : Nat) (clock : Nat → Nat) (led0 : Bool)
    (buf : Surface) :
    (∀ (width height : Nat), 1 ≤ width → width < UINT_MOD → 1 ≤ height → height < UINT_MOD →
      ∀ (px py : Nat), firstScreen width height buf px py = true ↔
        (px < width ∧ py < height ∧
          (px = 0 ∨ px = width - 1 ∨ py = 0 ∨ py = height - 1))) ∧
    (∀ (width height : Nat), 2 ≤ width → width < UINT_MOD → 2 ≤ height → height < UINT_MOD →
      ∀ (now : Nat) (s : LoopState), InBounds width height s →
        (loopBody width height startTs now s).1.x ≠ s.x ∧
        (loopBody width height startTs now s).1.y ≠ s.y ∧
        (loopBody width height startTs now s).1.oled s.x s.y = false) ∧
    ((mainLoop 128 32 startTs clock led0 buf 0).oled 31 31 = true ∧
     (mainLoop 128 32 startTs clock led0 buf 30).x = 31 ∧
     (mainLoop 128 32 startTs clock led0 buf 30).y = 31 ∧
     (mainLoop 128 32 startTs clock led0 buf 31).oled 31 31 = false ∧
     ∀ n, (∀ j, 31 < j → j ≤ 31 + n →
         ¬ ((mainLoop 128 32 startTs clock led0 buf j).x = 31 ∧
            (mainLoop 128 32 startTs clock led0 buf j).y = 31)) →
       (mainLoop 128 32 startTs clock led0 buf (31 + n)).oled 31 31 = false) := by
  have hx30 : (mainLoop 128 32 startTs clock led0 buf 30).x = 31 := by
    rw [(mainLoop_x_axis 128 32 startTs clock led0 buf 30).1,
      axisAfter_straight 128 (by decide) 30 (by decide)]
  have hy30 : (mainLoop 128 32 startTs clock led0 buf 30).y = 31 := by
    rw [(mainLoop_y_axis 128 32 startTs clock led0 buf 30).1,
      axisAfter_straight 32 (by decide) 30 (by decide)]
  have hoff : (mainLoop 128 32 startTs clock led0 buf 31).oled 31 31 = false := by
    have hb := mainLoop_inBounds 128 32 (by decide) (by decide) (by decide) (by decide)
      startTs clock led0 buf 30
    have hm := reflectStep_moves 128 _ _ (by decide) (by decide) hb.1 hb.2.2.1
    have he := loopBody_erases_old 128 32 startTs (clock 30) _ hm
    rw [hx30, hy30] at he
    exact he
  refine ⟨?_, ?_, ?_, hx30, hy30, hoff, ?_⟩
  · intro width height hw1 hw hh1 hh px py
    exact firstScreen_lit_iff width height hw1 hw hh1 hh buf px py
  · intro width height hw2 hw hh2 hh now s hs
    have hmx := reflectStep_moves width s.x s.dx hw2 hw hs.1 hs.2.2.1
    have hmy := reflectStep_moves height s.y s.dy hh2 hh hs.2.1 hs.2.2.2
    exact ⟨hmx, hmy, loopBody_erases_old width height startTs now s hmx⟩
  · rw [mainLoop_zero_oled,
      firstScreen_lit_iff 128 32 (by decide) (by decide) (by decide) (by decide)]
    decide
  · intro n hne
    exact mainLoop_keeps_off 128 32 startTs clock led0 buf 31 31 31 hoff n hne

theorem animation_erases_border_witness :
    (2 ≤ 128 ∧ 128 < UINT_MOD ∧ 2 ≤ 32 ∧ 32 < UINT_MOD ∧
      InBounds 128 32 (initState 128 32 false (fun _ _ => false))) ∧
    (loopBody 128 32 0 0 (initState 128 32 false (fun _ _ => false))).1.oled 1 1 = false :=
  ⟨⟨by decide, by decide, by decide, by decide, by decide⟩,
   ((animation_erases_border 0 (fun _ => 0) false (fun _ _ => false)).2.1 128 32
      (by decide) (by decide) (by decide) (by decide) 0
      (initState 128 32 false (fun _ _ => false)) (by decide)).2.2⟩


end PicoTestOled
